import Mathlib

/-!
Verification of the Monte Carlo GBM price-path simulation engine
(`generateGaussian` and `runGBM` in `src/App.tsx`), shallowly embedded
over the real numbers.  Randomness (`Math.random()`) is made explicit:
the embedding is parameterized by the stream of Gaussian draws used for
the paths and the stream of uniform draws used for the sampled
"spaghetti" indices.
-/

namespace MC

/-- The Box–Muller transform body of `generateGaussian`
(src/App.tsx line 59): `Math.sqrt(-2.0 * Math.log(u)) * Math.cos(2.0 * Math.PI * v)`. -/
noncomputable def generateGaussian (u v : ℝ) : ℝ :=
  Real.sqrt (-2.0 * Real.log u) * Real.cos (2.0 * Real.pi * v)

open Classical in
/-- The retry loops `while (u === 0) u = Math.random();` (src/App.tsx
lines 57–58): the uniform draw actually used is the first nonzero value
produced by the underlying uniform stream `us` (junk value 0 when the
stream is identically zero, in which case the loop would not terminate). -/
noncomputable def firstNonzero (us : ℕ → ℝ) : ℝ :=
  if h : ∃ n, us n ≠ 0 then us (Nat.find h) else 0

/-- The whole sampler `generateGaussian` as a function of the two raw
uniform streams it consumes. -/
noncomputable def generateGaussianDraw (us vs : ℕ → ℝ) : ℝ :=
  generateGaussian (firstNonzero us) (firstNonzero vs)

/-- The log-return series (src/App.tsx lines 65–70): entry `i` is
`Math.log(historicalPrices[i + 1] / historicalPrices[i])`. -/
noncomputable def computeReturns (prices : List ℝ) : List ℝ :=
  List.zipWith (fun prev cur => Real.log (cur / prev)) prices prices.tail

/-- Line 73: `returns.reduce((a, b) => a + b, 0) / n`. -/
noncomputable def meanReturn (returns : List ℝ) : ℝ :=
  returns.foldl (· + ·) 0 / (returns.length : ℝ)

/-- Line 74: `returns.reduce((acc, val) => acc + Math.pow(val - meanReturn, 2), 0) / (n - 1)`.
The divisor is `(n : ℝ) - 1` (JavaScript number arithmetic, so `n - 1`
may be `0` or `-1` for degenerate return counts). -/
noncomputable def sampleVariance (returns : List ℝ) : ℝ :=
  returns.foldl (fun acc val => acc + (val - meanReturn returns) ^ 2) 0
    / ((returns.length : ℝ) - 1)

/-- Line 75: `Math.sqrt(variance)`. -/
noncomputable def engineVolatility (prices : List ℝ) : ℝ :=
  Real.sqrt (sampleVariance (computeReturns prices))

/-- Line 76: `meanReturn - (variance / 2)`. -/
noncomputable def engineDrift (prices : List ℝ) : ℝ :=
  meanReturn (computeReturns prices) - sampleVariance (computeReturns prices) / 2

/-- Line 78: `historicalPrices[historicalPrices.length - 1]`. -/
noncomputable def lastPrice (prices : List ℝ) : ℝ :=
  prices.getD (prices.length - 1) 0

/-- The price of one simulated path after `t` steps (src/App.tsx lines
82–89): starts at `startPrice`, and each step multiplies by
`Math.exp(drift + volatility * Z)` where `Z` is the Gaussian draw of
that step (`Z t` is the draw used at step `t`, `t ≥ 1`). -/
noncomputable def pathPrice (startPrice drift volatility : ℝ) (Z : ℕ → ℝ) : ℕ → ℝ
  | 0 => startPrice
  | t + 1 => pathPrice startPrice drift volatility Z t
      * Real.exp (drift + volatility * Z (t + 1))

/-- The full stored path, `path = [lastPrice, …]` of length `days + 1`. -/
noncomputable def simPathList (startPrice drift volatility : ℝ) (Z : ℕ → ℝ)
    (days : ℕ) : List ℝ :=
  (List.range (days + 1)).map (pathPrice startPrice drift volatility Z)

/-- Explicit source of randomness: `gauss sim t` is the value of
`generateGaussian()` consumed by path number `sim` at step `t`, and
`unif i` is the `i`-th `Math.random()` draw used for the 30 sampled
path indices (line 100). -/
structure RandSource where
  gauss : ℕ → ℕ → ℝ
  unif : ℕ → ℝ

/-- Lines 79–91: `allPaths`, the ensemble of `numSimulations` full paths. -/
noncomputable def ensemble (rand : RandSource) (prices : List ℝ)
    (days numSimulations : ℕ) : List (List ℝ) :=
  (List.range numSimulations).map fun sim =>
    simPathList (lastPrice prices) (engineDrift prices) (engineVolatility prices)
      (rand.gauss sim) days

/-- The terminal (day = `days`) price of path number `i` — the
`finalPrice` field on line 94. -/
noncomputable def terminalPrice (rand : RandSource) (prices : List ℝ)
    (days : ℕ) (i : ℕ) : ℝ :=
  pathPrice (lastPrice prices) (engineDrift prices) (engineVolatility prices)
    (rand.gauss i) days

/-- Lines 93–95: `allPaths.map((path, index) => ({index, finalPrice: path[days]}))
.sort((a, b) => a.finalPrice - b.finalPrice)` — the `(index, finalPrice)`
pairs sorted ascending by terminal price. -/
noncomputable def sortedPathIndices (rand : RandSource) (prices : List ℝ)
    (days numSimulations : ℕ) : List (ℕ × ℝ) :=
  (((ensemble rand prices days numSimulations).enum.map
    fun p => (p.1, p.2.getD days 0)).mergeSort fun a b => decide (a.2 ≤ b.2))

/-- Line 97: `sortedPathIndices[0].index`. -/
noncomputable def minPathIndex (rand : RandSource) (prices : List ℝ)
    (days numSimulations : ℕ) : ℕ :=
  ((sortedPathIndices rand prices days numSimulations).getD 0 (0, 0)).1

/-- Line 98: `sortedPathIndices[sortedPathIndices.length - 1].index`. -/
noncomputable def maxPathIndex (rand : RandSource) (prices : List ℝ)
    (days numSimulations : ℕ) : ℕ :=
  ((sortedPathIndices rand prices days numSimulations).getD
    ((sortedPathIndices rand prices days numSimulations).length - 1) (0, 0)).1

/-- Line 100: `Array.from({length: 30}, () => Math.floor(Math.random() * numSimulations))`. -/
noncomputable def randomIndices (unif : ℕ → ℝ) (numSimulations : ℕ) : List ℕ :=
  (List.range 30).map fun i => ⌊unif i * (numSimulations : ℝ)⌋₊

/-- Lines 105–109: the percentile index `Math.floor(numSimulations * q)`. -/
noncomputable def pctIdx (numSimulations : ℕ) (q : ℝ) : ℕ :=
  ⌊(numSimulations : ℝ) * q⌋₊

/-- Line 104: `allPaths.map(path => path[t]).sort((a, b) => a - b)` — the
ascending-sorted cross-section of all paths' prices at day `t`. -/
noncomputable def crossSection (rand : RandSource) (prices : List ℝ)
    (days numSimulations t : ℕ) : List ℝ :=
  ((ensemble rand prices days numSimulations).map fun path => path.getD t 0).mergeSort

/-- One per-day aggregate record (src/App.tsx lines 111–125).  The
dynamic `sim0 … sim29` keys are modelled by the list `simValues`, whose
`i`-th entry is `allPaths[randomIndices[i]][t]`. -/
structure SimDataPoint where
  day : ℕ
  median : ℝ
  range : ℝ × ℝ
  innerRange : ℝ × ℝ
  p5 : ℝ
  p95 : ℝ
  outlierMin : ℝ
  outlierMax : ℝ
  simValues : List ℝ
deriving Inhabited

/-- Lines 103–127: the aggregate built for day `t`. -/
noncomputable def dayData (rand : RandSource) (prices : List ℝ)
    (days numSimulations t : ℕ) : SimDataPoint :=
  let paths := ensemble rand prices days numSimulations
  let pricesAtT := crossSection rand prices days numSimulations t
  let p5 := pricesAtT.getD (pctIdx numSimulations 0.05) 0
  let p25 := pricesAtT.getD (pctIdx numSimulations 0.25) 0
  let p50 := pricesAtT.getD (pctIdx numSimulations 0.50) 0
  let p75 := pricesAtT.getD (pctIdx numSimulations 0.75) 0
  let p95 := pricesAtT.getD (pctIdx numSimulations 0.95) 0
  { day := t
    median := p50
    range := (p5, p95)
    innerRange := (p25, p75)
    p5 := p5
    p95 := p95
    outlierMin := (paths.getD (minPathIndex rand prices days numSimulations) []).getD t 0
    outlierMax := (paths.getD (maxPathIndex rand prices days numSimulations) []).getD t 0
    simValues := (randomIndices rand.unif numSimulations).map
      fun simIndex => (paths.getD simIndex []).getD t 0 }

/-- Lines 102–128: `aggregatedData`, one `SimDataPoint` per day `t = 0 … days`. -/
noncomputable def aggregatedData (rand : RandSource) (prices : List ℝ)
    (days numSimulations : ℕ) : List SimDataPoint :=
  (List.range (days + 1)).map (dayData rand prices days numSimulations)

/-- Summary statistics (src/App.tsx lines 132–138).  The source stores
`volatility` as the string `(volatility * 100).toFixed(2)`; the numeric
value `volatility * 100` is modelled, the 2-decimal string formatting
being presentation only. -/
structure Stats where
  current : ℝ
  projectedMedian : ℝ
  projectedLow : ℝ
  projectedHigh : ℝ
  volatility : ℝ
deriving Inhabited

/-- The simulation result object (lines 130–139). -/
structure SimResult where
  data : List SimDataPoint
  stats : Stats
deriving Inhabited

/-- The non-null branch of `runGBM` (lines 65–139). -/
noncomputable def buildResult (rand : RandSource) (historicalPrices : List ℝ)
    (days numSimulations : ℕ) : SimResult :=
  let agg := aggregatedData rand historicalPrices days numSimulations
  { data := agg
    stats :=
      { current := lastPrice historicalPrices
        projectedMedian := (agg.getD days default).median
        projectedLow := (agg.getD days default).p5
        projectedHigh := (agg.getD days default).p95
        volatility := engineVolatility historicalPrices * 100 } }

/-- The public operation `runGBM` (src/App.tsx lines 62–140).  The source
defaults are `days = 20`, `numSimulations = 500`; the guard on line 63
returns `null` when the price series is empty or absent. -/
noncomputable def runGBM (rand : RandSource) (historicalPrices : List ℝ)
    (days numSimulations : ℕ) : Option SimResult :=
  if historicalPrices.length = 0 then none
  else some (buildResult rand historicalPrices days numSimulations)

/-- A concrete deterministic randomness source, used to instantiate the
theorems on concrete inputs. -/
def rand0 : RandSource :=
  { gauss := fun _ _ => 0, unif := fun _ => 0 }

/-! ### Helper lemmas -/

theorem ensemble_length (rand : RandSource) (prices : List ℝ)
    (days numSimulations : ℕ) :
    (ensemble rand prices days numSimulations).length = numSimulations := by
  simp [ensemble]

theorem ensemble_getD (rand : RandSource) (prices : List ℝ)
    (days numSimulations : ℕ) {s : ℕ} (hs : s < numSimulations) :
    (ensemble rand prices days numSimulations).getD s []
      = simPathList (lastPrice prices) (engineDrift prices)
          (engineVolatility prices) (rand.gauss s) days := by
  rw [ensemble, List.getD_eq_getElem _ _ (by simpa using hs)]
  simp

theorem simPathList_getD (startPrice drift volatility : ℝ) (Z : ℕ → ℝ)
    {days t : ℕ} (ht : t ≤ days) :
    (simPathList startPrice drift volatility Z days).getD t 0
      = pathPrice startPrice drift volatility Z t := by
  rw [simPathList, List.getD_eq_getElem _ _ (by simp; omega)]
  simp

theorem crossSection_length (rand : RandSource) (prices : List ℝ)
    (days numSimulations t : ℕ) :
    (crossSection rand prices days numSimulations t).length = numSimulations := by
  rw [crossSection, (List.mergeSort_perm _ _).length_eq]
  simp [ensemble]

theorem crossSection_sorted (rand : RandSource) (prices : List ℝ)
    (days numSimulations t : ℕ) :
    (crossSection rand prices days numSimulations t).Sorted (· ≤ ·) :=
  List.sorted_mergeSort' _

theorem mem_crossSection (rand : RandSource) (prices : List ℝ)
    (days numSimulations t : ℕ) {x : ℝ}
    (hx : x ∈ crossSection rand prices days numSimulations t) :
    ∃ s < numSimulations,
      x = (simPathList (lastPrice prices) (engineDrift prices)
        (engineVolatility prices) (rand.gauss s) days).getD t 0 := by
  rw [crossSection] at hx
  have hx' := (List.mergeSort_perm _ _).mem_iff.mp hx
  obtain ⟨path, hpath, rfl⟩ := List.mem_map.mp hx'
  rw [ensemble] at hpath
  obtain ⟨s, hs, rfl⟩ := List.mem_map.mp hpath
  exact ⟨s, List.mem_range.mp hs, rfl⟩

theorem sorted_getD_mono {l : List ℝ} (hs : l.Sorted (· ≤ ·)) {i j : ℕ}
    (hij : i ≤ j) (hj : j < l.length) :
    l.getD i 0 ≤ l.getD j 0 := by
  rw [List.getD_eq_getElem _ _ (lt_of_le_of_lt hij hj), List.getD_eq_getElem _ _ hj]
  rcases eq_or_lt_of_le hij with rfl | hlt
  · exact le_refl _
  · exact List.pairwise_iff_getElem.mp hs i j _ _ hlt

theorem pctIdx_lt {numSimulations : ℕ} (hN : 1 ≤ numSimulations) {q : ℝ}
    (h0 : 0 ≤ q) (h1 : q < 1) :
    pctIdx numSimulations q < numSimulations := by
  rw [pctIdx, Nat.floor_lt (by positivity)]
  calc (numSimulations : ℝ) * q < numSimulations * 1 := by
        apply mul_lt_mul_of_pos_left h1
        exact_mod_cast hN
    _ = numSimulations := mul_one _

theorem pctIdx_mono (numSimulations : ℕ) {q r : ℝ} (hqr : q ≤ r) :
    pctIdx numSimulations q ≤ pctIdx numSimulations r :=
  Nat.floor_le_floor (mul_le_mul_of_nonneg_left hqr (Nat.cast_nonneg _))

theorem sortedPathIndices_length (rand : RandSource) (prices : List ℝ)
    (days numSimulations : ℕ) :
    (sortedPathIndices rand prices days numSimulations).length = numSimulations := by
  rw [sortedPathIndices, (List.mergeSort_perm _ _).length_eq]
  simp [ensemble]

theorem sortedPathIndices_pairwise (rand : RandSource) (prices : List ℝ)
    (days numSimulations : ℕ) :
    (sortedPathIndices rand prices days numSimulations).Pairwise
      (fun a b => a.2 ≤ b.2) := by
  have htrans : ∀ a b c : ℕ × ℝ, (fun a b : ℕ × ℝ => decide (a.2 ≤ b.2)) a b →
      (fun a b : ℕ × ℝ => decide (a.2 ≤ b.2)) b c →
      (fun a b : ℕ × ℝ => decide (a.2 ≤ b.2)) a c := by
    intro a b c hab hbc
    simp only [decide_eq_true_eq] at *
    exact le_trans hab hbc
  have htotal : ∀ a b : ℕ × ℝ, ((fun a b : ℕ × ℝ => decide (a.2 ≤ b.2)) a b
      || (fun a b : ℕ × ℝ => decide (a.2 ≤ b.2)) b a) := by
    intro a b
    simp only [Bool.or_eq_true, decide_eq_true_eq]
    exact le_total _ _
  have h := List.sorted_mergeSort htrans htotal
    ((ensemble rand prices days numSimulations).enum.map
      fun p => (p.1, p.2.getD days 0))
  exact h.imp (by simp)

theorem mem_sortedPathIndices (rand : RandSource) (prices : List ℝ)
    (days numSimulations : ℕ) {p : ℕ × ℝ}
    (hp : p ∈ sortedPathIndices rand prices days numSimulations) :
    p.1 < numSimulations ∧ p.2 = terminalPrice rand prices days p.1 := by
  rw [sortedPathIndices] at hp
  have hp' := (List.mergeSort_perm _ _).mem_iff.mp hp
  obtain ⟨⟨i, path⟩, hmem, rfl⟩ := List.mem_map.mp hp'
  have hget := List.mk_mem_enum_iff_getElem?.mp hmem
  have hi : i < (ensemble rand prices days numSimulations).length := by
    exact (List.getElem?_eq_some.mp hget).1
  have hpath : path = (ensemble rand prices days numSimulations)[i] := by
    have := (List.getElem?_eq_some.mp hget).2
    exact this.symm
  have hiN : i < numSimulations := by
    simpa [ensemble_length] using hi
  constructor
  · exact hiN
  · subst hpath
    rw [show (ensemble rand prices days numSimulations)[i]
        = (ensemble rand prices days numSimulations).getD i [] from
        (List.getD_eq_getElem _ _ hi).symm]
    rw [ensemble_getD rand prices days numSimulations hiN]
    rw [simPathList_getD _ _ _ _ (le_refl days)]
    rfl

theorem pair_mem_sortedPathIndices (rand : RandSource) (prices : List ℝ)
    (days numSimulations : ℕ) {j : ℕ} (hj : j < numSimulations) :
    (j, terminalPrice rand prices days j)
      ∈ sortedPathIndices rand prices days numSimulations := by
  rw [sortedPathIndices]
  rw [List.mem_mergeSort]
  apply List.mem_map.mpr
  refine ⟨(j, simPathList (lastPrice prices) (engineDrift prices)
    (engineVolatility prices) (rand.gauss j) days), ?_, ?_⟩
  · apply List.mk_mem_enum_iff_getElem?.mpr
    have hlen : j < (ensemble rand prices days numSimulations).length := by
      simpa [ensemble_length] using hj
    rw [List.getElem?_eq_getElem hlen]
    have hD := ensemble_getD rand prices days numSimulations hj
    rw [List.getD_eq_getElem _ _ hlen] at hD
    rw [hD]
  · simp only
    rw [simPathList_getD _ _ _ _ (le_refl days)]
    rfl

theorem computeReturns_length (l : List ℝ) :
    (computeReturns l).length = l.length - 1 := by
  simp [computeReturns, List.length_zipWith, List.length_tail]

theorem computeReturns_getD :
    ∀ (l : List ℝ) (i : ℕ), i + 1 < l.length →
      (computeReturns l).getD i 0 = Real.log (l.getD (i + 1) 0 / l.getD i 0)
  | [], i, h => by simp at h
  | [p], i, h => by simp at h
  | p :: q :: rest, 0, h => by simp [computeReturns]
  | p :: q :: rest, i + 1, h => by
    have ih := computeReturns_getD (q :: rest) i (by simpa using h)
    simpa [computeReturns] using ih

theorem foldl_add_map (f : ℝ → ℝ) :
    ∀ (l : List ℝ) (a : ℝ),
      l.foldl (fun acc val => acc + f val) a = a + (l.map f).sum
  | [], a => by simp
  | x :: l, a => by
    rw [List.foldl_cons, foldl_add_map f l (a + f x)]
    simp
    ring

theorem foldl_add_eq_sum (l : List ℝ) : l.foldl (· + ·) 0 = l.sum := by
  have := foldl_add_map id l 0
  simpa using this

theorem sortedPathIndices_getD_le (rand : RandSource) (prices : List ℝ)
    (days numSimulations : ℕ) {k1 k2 : ℕ} (hk : k1 ≤ k2)
    (hk2 : k2 < (sortedPathIndices rand prices days numSimulations).length) :
    ((sortedPathIndices rand prices days numSimulations).getD k1 (0, 0)).2
      ≤ ((sortedPathIndices rand prices days numSimulations).getD k2 (0, 0)).2 := by
  rw [List.getD_eq_getElem _ _ (lt_of_le_of_lt hk hk2), List.getD_eq_getElem _ _ hk2]
  rcases eq_or_lt_of_le hk with rfl | hlt
  · exact le_refl _
  · exact List.pairwise_iff_getElem.mp
      (sortedPathIndices_pairwise rand prices days numSimulations) k1 k2 _ _ hlt

theorem minPathIndex_spec (rand : RandSource) (prices : List ℝ)
    (days numSimulations : ℕ) (hN : 1 ≤ numSimulations) :
    minPathIndex rand prices days numSimulations < numSimulations ∧
    ∀ j < numSimulations,
      terminalPrice rand prices days (minPathIndex rand prices days numSimulations)
        ≤ terminalPrice rand prices days j := by
  have hlen : (sortedPathIndices rand prices days numSimulations).length
      = numSimulations := sortedPathIndices_length rand prices days numSimulations
  have h0 : 0 < (sortedPathIndices rand prices days numSimulations).length := by
    omega
  have hhead : (sortedPathIndices rand prices days numSimulations).getD 0 (0, 0)
      ∈ sortedPathIndices rand prices days numSimulations := by
    rw [List.getD_eq_getElem _ _ h0]
    exact List.getElem_mem _
  have hmem := mem_sortedPathIndices rand prices days numSimulations hhead
  refine ⟨hmem.1, ?_⟩
  intro j hj
  have hterm : terminalPrice rand prices days
      (minPathIndex rand prices days numSimulations)
      = ((sortedPathIndices rand prices days numSimulations).getD 0 (0, 0)).2 := by
    rw [minPathIndex]
    exact hmem.2.symm
  have hjmem := pair_mem_sortedPathIndices rand prices days numSimulations hj
  obtain ⟨k, hk, hkeq⟩ := List.mem_iff_getElem.mp hjmem
  have hchain := sortedPathIndices_getD_le rand prices days numSimulations
    (Nat.zero_le k) hk
  rw [List.getD_eq_getElem _ _ hk, hkeq] at hchain
  rw [hterm]
  exact hchain

theorem maxPathIndex_spec (rand : RandSource) (prices : List ℝ)
    (days numSimulations : ℕ) (hN : 1 ≤ numSimulations) :
    maxPathIndex rand prices days numSimulations < numSimulations ∧
    ∀ j < numSimulations,
      terminalPrice rand prices days j
        ≤ terminalPrice rand prices days
            (maxPathIndex rand prices days numSimulations) := by
  have hlen : (sortedPathIndices rand prices days numSimulations).length
      = numSimulations := sortedPathIndices_length rand prices days numSimulations
  have hlast : (sortedPathIndices rand prices days numSimulations).length - 1
      < (sortedPathIndices rand prices days numSimulations).length := by
    omega
  have hhead : (sortedPathIndices rand prices days numSimulations).getD
      ((sortedPathIndices rand prices days numSimulations).length - 1) (0, 0)
      ∈ sortedPathIndices rand prices days numSimulations := by
    rw [List.getD_eq_getElem _ _ hlast]
    exact List.getElem_mem _
  have hmem := mem_sortedPathIndices rand prices days numSimulations hhead
  refine ⟨hmem.1, ?_⟩
  intro j hj
  have hterm : terminalPrice rand prices days
      (maxPathIndex rand prices days numSimulations)
      = ((sortedPathIndices rand prices days numSimulations).getD
          ((sortedPathIndices rand prices days numSimulations).length - 1) (0, 0)).2 := by
    rw [maxPathIndex]
    exact hmem.2.symm
  have hjmem := pair_mem_sortedPathIndices rand prices days numSimulations hj
  obtain ⟨k, hk, hkeq⟩ := List.mem_iff_getElem.mp hjmem
  have hchain := sortedPathIndices_getD_le rand prices days numSimulations
    (by omega : k ≤ (sortedPathIndices rand prices days numSimulations).length - 1)
    hlast
  rw [List.getD_eq_getElem _ _ hk, hkeq] at hchain
  rw [hterm]
  exact hchain

theorem aggregatedData_length (rand : RandSource) (prices : List ℝ)
    (days numSimulations : ℕ) :
    (aggregatedData rand prices days numSimulations).length = days + 1 := by
  simp [aggregatedData]

theorem aggregatedData_getD (rand : RandSource) (prices : List ℝ)
    (days numSimulations : ℕ) {t : ℕ} (ht : t ≤ days) :
    (aggregatedData rand prices days numSimulations).getD t default
      = dayData rand prices days numSimulations t := by
  rw [aggregatedData, List.getD_eq_getElem _ _ (by simp; omega)]
  simp

theorem mem_aggregatedData (rand : RandSource) (prices : List ℝ)
    (days numSimulations : ℕ) {d : SimDataPoint}
    (hd : d ∈ aggregatedData rand prices days numSimulations) :
    ∃ t ≤ days, d = dayData rand prices days numSimulations t := by
  rw [aggregatedData] at hd
  obtain ⟨t, ht, rfl⟩ := List.mem_map.mp hd
  have := List.mem_range.mp ht
  exact ⟨t, by omega, rfl⟩

theorem runGBM_eq_some (rand : RandSource) (prices : List ℝ)
    (days numSimulations : ℕ) (hne : prices ≠ []) :
    runGBM rand prices days numSimulations
      = some (buildResult rand prices days numSimulations) := by
  rw [runGBM, if_neg]
  simpa using hne

theorem runGBM_some_inv (rand : RandSource) (prices : List ℝ)
    (days numSimulations : ℕ) {res : SimResult}
    (hres : runGBM rand prices days numSimulations = some res) :
    prices ≠ [] ∧ res = buildResult rand prices days numSimulations := by
  have hne : prices ≠ [] := by
    intro h
    subst h
    rw [runGBM] at hres
    simp at hres
  refine ⟨hne, ?_⟩
  rw [runGBM_eq_some rand prices days numSimulations hne] at hres
  exact (Option.some_injective _ hres).symm

theorem dayData_day (rand : RandSource) (prices : List ℝ)
    (days numSimulations t : ℕ) :
    (dayData rand prices days numSimulations t).day = t := rfl

theorem dayData_p5 (rand : RandSource) (prices : List ℝ)
    (days numSimulations t : ℕ) :
    (dayData rand prices days numSimulations t).p5
      = (crossSection rand prices days numSimulations t).getD
          (pctIdx numSimulations 0.05) 0 := rfl

theorem dayData_p25 (rand : RandSource) (prices : List ℝ)
    (days numSimulations t : ℕ) :
    (dayData rand prices days numSimulations t).innerRange.1
      = (crossSection rand prices days numSimulations t).getD
          (pctIdx numSimulations 0.25) 0 := rfl

theorem dayData_median (rand : RandSource) (prices : List ℝ)
    (days numSimulations t : ℕ) :
    (dayData rand prices days numSimulations t).median
      = (crossSection rand prices days numSimulations t).getD
          (pctIdx numSimulations 0.50) 0 := rfl

theorem dayData_p75 (rand : RandSource) (prices : List ℝ)
    (days numSimulations t : ℕ) :
    (dayData rand prices days numSimulations t).innerRange.2
      = (crossSection rand prices days numSimulations t).getD
          (pctIdx numSimulations 0.75) 0 := rfl

theorem dayData_p95 (rand : RandSource) (prices : List ℝ)
    (days numSimulations t : ℕ) :
    (dayData rand prices days numSimulations t).p95
      = (crossSection rand prices days numSimulations t).getD
          (pctIdx numSimulations 0.95) 0 := rfl

theorem dayData_outlierMin (rand : RandSource) (prices : List ℝ)
    (days numSimulations t : ℕ) :
    (dayData rand prices days numSimulations t).outlierMin
      = ((ensemble rand prices days numSimulations).getD
          (minPathIndex rand prices days numSimulations) []).getD t 0 := rfl

theorem dayData_outlierMax (rand : RandSource) (prices : List ℝ)
    (days numSimulations t : ℕ) :
    (dayData rand prices days numSimulations t).outlierMax
      = ((ensemble rand prices days numSimulations).getD
          (maxPathIndex rand prices days numSimulations) []).getD t 0 := rfl

theorem dayData_simValues (rand : RandSource) (prices : List ℝ)
    (days numSimulations t : ℕ) :
    (dayData rand prices days numSimulations t).simValues
      = (randomIndices rand.unif numSimulations).map
          fun simIndex =>
            ((ensemble rand prices days numSimulations).getD simIndex []).getD t 0 :=
  rfl

theorem buildResult_data (rand : RandSource) (prices : List ℝ)
    (days numSimulations : ℕ) :
    (buildResult rand prices days numSimulations).data
      = aggregatedData rand prices days numSimulations := rfl

theorem buildResult_current (rand : RandSource) (prices : List ℝ)
    (days numSimulations : ℕ) :
    (buildResult rand prices days numSimulations).stats.current
      = lastPrice prices := rfl

/-! ### Claims -/

/-- C1: for every price series of length ≥ 3, the log-return series has
one entry per consecutive pair, entry `i = ln(price[i+1] / price[i])`;
the mean is the arithmetic average of the log returns; the sample
variance uses the unbiased divisor `n - 1` (`n` = return count);
volatility = `sqrt(variance)`; drift = `mean - variance / 2`. -/
theorem C1_return_statistics (prices : List ℝ) (h : 3 ≤ prices.length) :
    (computeReturns prices).length = prices.length - 1 ∧
    (∀ i, i + 1 < prices.length →
      (computeReturns prices).getD i 0
        = Real.log (prices.getD (i + 1) 0 / prices.getD i 0)) ∧
    meanReturn (computeReturns prices)
      = (computeReturns prices).sum / ((computeReturns prices).length : ℝ) ∧
    sampleVariance (computeReturns prices)
      = ((computeReturns prices).map
          (fun r => (r - meanReturn (computeReturns prices)) ^ 2)).sum
        / (((computeReturns prices).length : ℝ) - 1) ∧
    engineVolatility prices = Real.sqrt (sampleVariance (computeReturns prices)) ∧
    engineDrift prices
      = meanReturn (computeReturns prices) - sampleVariance (computeReturns prices) / 2 := by
  refine ⟨computeReturns_length prices, computeReturns_getD prices, ?_, ?_, rfl, rfl⟩
  · rw [meanReturn, foldl_add_eq_sum]
  · rw [sampleVariance, foldl_add_map]
    simp

/-- C1 witness at the concrete series `[100, 102, 101]`. -/
theorem C1_return_statistics_witness :
    (computeReturns [(100 : ℝ), 102, 101]).length = 2 ∧
    (∀ i, i + 1 < ([(100 : ℝ), 102, 101] : List ℝ).length →
      (computeReturns [(100 : ℝ), 102, 101]).getD i 0
        = Real.log (([(100 : ℝ), 102, 101] : List ℝ).getD (i + 1) 0
            / ([(100 : ℝ), 102, 101] : List ℝ).getD i 0)) ∧
    meanReturn (computeReturns [(100 : ℝ), 102, 101])
      = (computeReturns [(100 : ℝ), 102, 101]).sum
        / ((computeReturns [(100 : ℝ), 102, 101]).length : ℝ) ∧
    sampleVariance (computeReturns [(100 : ℝ), 102, 101])
      = ((computeReturns [(100 : ℝ), 102, 101]).map
          (fun r => (r - meanReturn (computeReturns [(100 : ℝ), 102, 101])) ^ 2)).sum
        / (((computeReturns [(100 : ℝ), 102, 101]).length : ℝ) - 1) ∧
    engineVolatility [(100 : ℝ), 102, 101]
      = Real.sqrt (sampleVariance (computeReturns [(100 : ℝ), 102, 101])) ∧
    engineDrift [(100 : ℝ), 102, 101]
      = meanReturn (computeReturns [(100 : ℝ), 102, 101])
        - sampleVariance (computeReturns [(100 : ℝ), 102, 101]) / 2 := by
  have h3 : 3 ≤ ([(100 : ℝ), 102, 101] : List ℝ).length := by simp
  have := C1_return_statistics [(100 : ℝ), 102, 101] h3
  simpa using this

/-- C2: every day aggregate of a `runGBM` result has non-decreasing
percentiles `p5 ≤ p25 ≤ median ≤ p75 ≤ p95` (with `p25`/`p75` stored in
`innerRange`), because all five are read from the single
ascending-sorted cross-section of the paths' prices at that day. -/
theorem C2_percentiles_monotone (rand : RandSource) (prices : List ℝ)
    (days numSimulations : ℕ) (res : SimResult)
    (hres : runGBM rand prices days numSimulations = some res)
    (d : SimDataPoint) (hd : d ∈ res.data) :
    d.p5 ≤ d.innerRange.1 ∧ d.innerRange.1 ≤ d.median ∧
    d.median ≤ d.innerRange.2 ∧ d.innerRange.2 ≤ d.p95 := by
  obtain ⟨hne, rfl⟩ := runGBM_some_inv rand prices days numSimulations hres
  rw [buildResult_data] at hd
  obtain ⟨t, ht, rfl⟩ := mem_aggregatedData rand prices days numSimulations hd
  rw [dayData_p5, dayData_p25, dayData_median, dayData_p75, dayData_p95]
  by_cases hN : numSimulations = 0
  · subst hN
    have hcs : crossSection rand prices days 0 t = [] := by
      have := crossSection_length rand prices days 0 t
      simpa using this
    rw [hcs]
    simp
  · have hN1 : 1 ≤ numSimulations := Nat.one_le_iff_ne_zero.mpr hN
    have hsorted := crossSection_sorted rand prices days numSimulations t
    have hb : ∀ q : ℝ, q ≤ 0.95 →
        pctIdx numSimulations q
          < (crossSection rand prices days numSimulations t).length := by
      intro q hq
      rw [crossSection_length]
      exact lt_of_le_of_lt (pctIdx_mono _ hq)
        (pctIdx_lt hN1 (by norm_num) (by norm_num))
    exact ⟨sorted_getD_mono hsorted (pctIdx_mono _ (by norm_num)) (hb _ (by norm_num)),
      sorted_getD_mono hsorted (pctIdx_mono _ (by norm_num)) (hb _ (by norm_num)),
      sorted_getD_mono hsorted (pctIdx_mono _ (by norm_num)) (hb _ (by norm_num)),
      sorted_getD_mono hsorted (pctIdx_mono _ (by norm_num)) (hb _ (by norm_num))⟩

/-- C2 witness: the day-0 aggregate of a concrete run. -/
theorem C2_percentiles_monotone_witness :
    ((buildResult rand0 [(100 : ℝ), 102, 101] 2 3).data.getD 0 default).p5
      ≤ ((buildResult rand0 [(100 : ℝ), 102, 101] 2 3).data.getD 0 default).innerRange.1 ∧
    ((buildResult rand0 [(100 : ℝ), 102, 101] 2 3).data.getD 0 default).innerRange.1
      ≤ ((buildResult rand0 [(100 : ℝ), 102, 101] 2 3).data.getD 0 default).median ∧
    ((buildResult rand0 [(100 : ℝ), 102, 101] 2 3).data.getD 0 default).median
      ≤ ((buildResult rand0 [(100 : ℝ), 102, 101] 2 3).data.getD 0 default).innerRange.2 ∧
    ((buildResult rand0 [(100 : ℝ), 102, 101] 2 3).data.getD 0 default).innerRange.2
      ≤ ((buildResult rand0 [(100 : ℝ), 102, 101] 2 3).data.getD 0 default).p95 := by
  have h0 : 0 < (buildResult rand0 [(100 : ℝ), 102, 101] 2 3).data.length := by
    rw [buildResult_data, aggregatedData_length]
    omega
  have hd : (buildResult rand0 [(100 : ℝ), 102, 101] 2 3).data.getD 0 default
      ∈ (buildResult rand0 [(100 : ℝ), 102, 101] 2 3).data := by
    rw [List.getD_eq_getElem _ _ h0]
    exact List.getElem_mem _
  exact C2_percentiles_monotone rand0 [(100 : ℝ), 102, 101] 2 3
    (buildResult rand0 [(100 : ℝ), 102, 101] 2 3)
    (runGBM_eq_some rand0 [(100 : ℝ), 102, 101] 2 3 (by simp)) _ hd

/-- C3: for all valid inputs, the result's per-day aggregate sequence
has exactly `horizonDays + 1` entries whose `day` fields are
`0, 1, …, horizonDays` in order. -/
theorem C3_day_sequence (rand : RandSource) (prices : List ℝ)
    (days numSimulations : ℕ) (res : SimResult)
    (hne : prices ≠ []) (hpos : ∀ p ∈ prices, 0 < p)
    (hdays : 0 < days) (hN : 0 < numSimulations)
    (hres : runGBM rand prices days numSimulations = some res) :
    res.data.length = days + 1 ∧
    ∀ t, t ≤ days → (res.data.getD t default).day = t := by
  obtain ⟨-, rfl⟩ := runGBM_some_inv rand prices days numSimulations hres
  rw [buildResult_data]
  refine ⟨aggregatedData_length rand prices days numSimulations, ?_⟩
  intro t ht
  rw [aggregatedData_getD rand prices days numSimulations ht, dayData_day]

/-- C3 witness: prices `[100, 102, 101]`, horizon 2, 3 paths. -/
theorem C3_day_sequence_witness :
    (buildResult rand0 [(100 : ℝ), 102, 101] 2 3).data.length = 2 + 1 ∧
    ∀ t, t ≤ 2 →
      ((buildResult rand0 [(100 : ℝ), 102, 101] 2 3).data.getD t default).day = t :=
  C3_day_sequence rand0 [(100 : ℝ), 102, 101] 2 3
    (buildResult rand0 [(100 : ℝ), 102, 101] 2 3)
    (by simp) (by norm_num) (by omega) (by omega)
    (runGBM_eq_some rand0 [(100 : ℝ), 102, 101] 2 3 (by simp))

/-- C4: for all valid inputs, the day-0 aggregate's `median`, `p5`,
`p95`, `outlierMin` and `outlierMax` all equal the last historical
price exactly, and `stats.current` equals the last historical price
exactly (every path starts at that price). -/
theorem C4_day_zero (rand : RandSource) (prices : List ℝ)
    (days numSimulations : ℕ) (res : SimResult)
    (hne : prices ≠ []) (hpos : ∀ p ∈ prices, 0 < p)
    (hN : 0 < numSimulations)
    (hres : runGBM rand prices days numSimulations = some res) :
    (res.data.getD 0 default).median = lastPrice prices ∧
    (res.data.getD 0 default).p5 = lastPrice prices ∧
    (res.data.getD 0 default).p95 = lastPrice prices ∧
    (res.data.getD 0 default).outlierMin = lastPrice prices ∧
    (res.data.getD 0 default).outlierMax = lastPrice prices ∧
    res.stats.current = lastPrice prices := by
  obtain ⟨-, rfl⟩ := runGBM_some_inv rand prices days numSimulations hres
  rw [buildResult_data]
  rw [aggregatedData_getD rand prices days numSimulations (Nat.zero_le days)]
  have hN1 : 1 ≤ numSimulations := hN
  have hgetD : ∀ i < numSimulations,
      (crossSection rand prices days numSimulations 0).getD i 0
        = lastPrice prices := by
    intro i hi
    have hlen := crossSection_length rand prices days numSimulations 0
    rw [List.getD_eq_getElem _ _ (by omega)]
    have hmem : (crossSection rand prices days numSimulations 0).get
        ⟨i, by omega⟩ ∈ crossSection rand prices days numSimulations 0 :=
      List.get_mem _ _ _
    obtain ⟨s, hs, heq⟩ := mem_crossSection rand prices days numSimulations 0 hmem
    rw [List.get_eq_getElem] at heq
    rw [heq, simPathList_getD _ _ _ _ (Nat.zero_le days)]
    rfl
  have houtlier : ∀ k < numSimulations,
      ((ensemble rand prices days numSimulations).getD k []).getD 0 0
        = lastPrice prices := by
    intro k hk
    rw [ensemble_getD rand prices days numSimulations hk,
      simPathList_getD _ _ _ _ (Nat.zero_le days)]
    rfl
  refine ⟨?_, ?_, ?_, ?_, ?_, rfl⟩
  · rw [dayData_median]
    exact hgetD _ (pctIdx_lt hN1 (by norm_num) (by norm_num))
  · rw [dayData_p5]
    exact hgetD _ (pctIdx_lt hN1 (by norm_num) (by norm_num))
  · rw [dayData_p95]
    exact hgetD _ (pctIdx_lt hN1 (by norm_num) (by norm_num))
  · rw [dayData_outlierMin]
    exact houtlier _ (minPathIndex_spec rand prices days numSimulations hN1).1
  · rw [dayData_outlierMax]
    exact houtlier _ (maxPathIndex_spec rand prices days numSimulations hN1).1

/-- C4 witness: prices `[100, 102, 101]`, horizon 2, 3 paths. -/
theorem C4_day_zero_witness :
    ((buildResult rand0 [(100 : ℝ), 102, 101] 2 3).data.getD 0 default).median
      = lastPrice [(100 : ℝ), 102, 101] ∧
    ((buildResult rand0 [(100 : ℝ), 102, 101] 2 3).data.getD 0 default).p5
      = lastPrice [(100 : ℝ), 102, 101] ∧
    ((buildResult rand0 [(100 : ℝ), 102, 101] 2 3).data.getD 0 default).p95
      = lastPrice [(100 : ℝ), 102, 101] ∧
    ((buildResult rand0 [(100 : ℝ), 102, 101] 2 3).data.getD 0 default).outlierMin
      = lastPrice [(100 : ℝ), 102, 101] ∧
    ((buildResult rand0 [(100 : ℝ), 102, 101] 2 3).data.getD 0 default).outlierMax
      = lastPrice [(100 : ℝ), 102, 101] ∧
    (buildResult rand0 [(100 : ℝ), 102, 101] 2 3).stats.current
      = lastPrice [(100 : ℝ), 102, 101] :=
  C4_day_zero rand0 [(100 : ℝ), 102, 101] 2 3
    (buildResult rand0 [(100 : ℝ), 102, 101] 2 3)
    (by simp) (by norm_num) (by omega)
    (runGBM_eq_some rand0 [(100 : ℝ), 102, 101] 2 3 (by simp))

/-- C5: the outlier-max path's terminal value is ≥ every path's
terminal value and the outlier-min path's terminal value is ≤ every
path's terminal value; and the `outlierMin` / `outlierMax` values
recorded at every day `t` are the day-`t` prices of those two single
selected paths (full realized scenarios), not per-day independent
minima / maxima. -/
theorem C5_outlier_paths (rand : RandSource) (prices : List ℝ)
    (days numSimulations : ℕ) (res : SimResult)
    (hN : 1 ≤ numSimulations)
    (hres : runGBM rand prices days numSimulations = some res) :
    (∀ j < numSimulations,
      terminalPrice rand prices days (minPathIndex rand prices days numSimulations)
        ≤ terminalPrice rand prices days j ∧
      terminalPrice rand prices days j
        ≤ terminalPrice rand prices days (maxPathIndex rand prices days numSimulations)) ∧
    (∀ t ≤ days,
      (res.data.getD t default).outlierMin
        = pathPrice (lastPrice prices) (engineDrift prices) (engineVolatility prices)
            (rand.gauss (minPathIndex rand prices days numSimulations)) t ∧
      (res.data.getD t default).outlierMax
        = pathPrice (lastPrice prices) (engineDrift prices) (engineVolatility prices)
            (rand.gauss (maxPathIndex rand prices days numSimulations)) t) := by
  obtain ⟨-, rfl⟩ := runGBM_some_inv rand prices days numSimulations hres
  constructor
  · intro j hj
    exact ⟨(minPathIndex_spec rand prices days numSimulations hN).2 j hj,
      (maxPathIndex_spec rand prices days numSimulations hN).2 j hj⟩
  · intro t ht
    rw [buildResult_data, aggregatedData_getD rand prices days numSimulations ht]
    rw [dayData_outlierMin, dayData_outlierMax]
    constructor
    · rw [ensemble_getD rand prices days numSimulations
        (minPathIndex_spec rand prices days numSimulations hN).1,
        simPathList_getD _ _ _ _ ht]
    · rw [ensemble_getD rand prices days numSimulations
        (maxPathIndex_spec rand prices days numSimulations hN).1,
        simPathList_getD _ _ _ _ ht]

/-- C5 witness: prices `[100, 102, 101]`, horizon 2, 3 paths. -/
theorem C5_outlier_paths_witness :
    (∀ j < 3,
      terminalPrice rand0 [(100 : ℝ), 102, 101] 2 (minPathIndex rand0 [(100 : ℝ), 102, 101] 2 3)
        ≤ terminalPrice rand0 [(100 : ℝ), 102, 101] 2 j ∧
      terminalPrice rand0 [(100 : ℝ), 102, 101] 2 j
        ≤ terminalPrice rand0 [(100 : ℝ), 102, 101] 2
            (maxPathIndex rand0 [(100 : ℝ), 102, 101] 2 3)) ∧
    (∀ t ≤ 2,
      ((buildResult rand0 [(100 : ℝ), 102, 101] 2 3).data.getD t default).outlierMin
        = pathPrice (lastPrice [(100 : ℝ), 102, 101])
            (engineDrift [(100 : ℝ), 102, 101]) (engineVolatility [(100 : ℝ), 102, 101])
            (rand0.gauss (minPathIndex rand0 [(100 : ℝ), 102, 101] 2 3)) t ∧
      ((buildResult rand0 [(100 : ℝ), 102, 101] 2 3).data.getD t default).outlierMax
        = pathPrice (lastPrice [(100 : ℝ), 102, 101])
            (engineDrift [(100 : ℝ), 102, 101]) (engineVolatility [(100 : ℝ), 102, 101])
            (rand0.gauss (maxPathIndex rand0 [(100 : ℝ), 102, 101] 2 3)) t) :=
  C5_outlier_paths rand0 [(100 : ℝ), 102, 101] 2 3
    (buildResult rand0 [(100 : ℝ), 102, 101] 2 3)
    (by omega)
    (runGBM_eq_some rand0 [(100 : ℝ), 102, 101] 2 3 (by simp))

/-- C6: `runGBM` returns `null` if and only if the input price sequence
is empty or absent; on every non-empty sequence it returns a non-null
result (no error path exists: the function is total). -/
theorem C6_null_iff_empty (rand : RandSource) (prices : List ℝ)
    (days numSimulations : ℕ) :
    runGBM rand prices days numSimulations = none ↔ prices = [] := by
  unfold runGBM
  rcases prices with _ | ⟨p, rest⟩ <;> simp

/-- C7: percentile extraction reads the sorted cross-section at the
nearest-rank index `floor(pathCount * q)` for the five percentile
levels; for every `pathCount ≥ 1` that index is within the valid range
`[0, pathCount - 1]` (so clamping it there is the identity and no
percentile access is out of range). -/
theorem C7_percentile_index_in_bounds (rand : RandSource) (prices : List ℝ)
    (days numSimulations t : ℕ) (hN : 1 ≤ numSimulations) (q : ℝ)
    (hq : q = 0.05 ∨ q = 0.25 ∨ q = 0.50 ∨ q = 0.75 ∨ q = 0.95) :
    pctIdx numSimulations q < numSimulations ∧
    pctIdx numSimulations q = min (pctIdx numSimulations q) (numSimulations - 1) ∧
    pctIdx numSimulations q
      < (crossSection rand prices days numSimulations t).length := by
  have hq0 : 0 ≤ q := by rcases hq with rfl | rfl | rfl | rfl | rfl <;> norm_num
  have hq1 : q < 1 := by rcases hq with rfl | rfl | rfl | rfl | rfl <;> norm_num
  have hlt := pctIdx_lt hN hq0 hq1
  refine ⟨hlt, by omega, ?_⟩
  rw [crossSection_length]
  exact hlt

/-- C7 witness at `pathCount = 1`, `q = 0.95`. -/
theorem C7_percentile_index_in_bounds_witness :
    pctIdx 1 0.95 < 1 ∧
    pctIdx 1 0.95 = min (pctIdx 1 0.95) (1 - 1) ∧
    pctIdx 1 0.95 < (crossSection rand0 [(100 : ℝ), 102, 101] 2 1 0).length :=
  C7_percentile_index_in_bounds rand0 [(100 : ℝ), 102, 101] 2 1 0
    (by omega) 0.95 (by norm_num)

/-- C8 counterexample: on the two-price series `[100, 102]` (a single
log return, so the `n - 1` variance divisor is zero) the engine does
not fail: it returns a non-null result. -/
theorem C8_counterexample :
    (runGBM rand0 [(100 : ℝ), 102] 20 500).isSome = true := by
  rw [runGBM_eq_some rand0 [(100 : ℝ), 102] 20 500 (by simp)]
  rfl

/-- C8 amended: when the input yields fewer than 2 log returns (a
non-empty price series of length ≤ 2), the engine does not raise any
error — it still returns a non-null result, silently performing the
sample-variance division with the degenerate divisor `n - 1 ≤ 0`
(`0` when `n = 1`, propagating NaN in the JavaScript semantics). -/
theorem C8_no_degenerate_guard (rand : RandSource) (prices : List ℝ)
    (days numSimulations : ℕ) (hne : prices ≠ [])
    (hlen : prices.length ≤ 2) :
    (runGBM rand prices days numSimulations).isSome = true ∧
    (computeReturns prices).length ≤ 1 ∧
    ((computeReturns prices).length : ℝ) - 1 ≤ 0 := by
  have hr : (computeReturns prices).length ≤ 1 := by
    rw [computeReturns_length]
    omega
  refine ⟨?_, hr, ?_⟩
  · rw [runGBM_eq_some rand prices days numSimulations hne]
    rfl
  · have : ((computeReturns prices).length : ℝ) ≤ 1 := by exact_mod_cast hr
    linarith

/-- C8 amended-claim witness at the series `[100, 102]`. -/
theorem C8_no_degenerate_guard_witness :
    (runGBM rand0 [(100 : ℝ), 102] 20 500).isSome = true ∧
    (computeReturns [(100 : ℝ), 102]).length ≤ 1 ∧
    ((computeReturns [(100 : ℝ), 102]).length : ℝ) - 1 ≤ 0 :=
  C8_no_degenerate_guard rand0 [(100 : ℝ), 102] 20 500 (by simp) (by simp)

/-- C9: the Gaussian sampler computes `sqrt(-2 ln u) * cos(2π v)` from
two uniform draws, redrawing on a drawn `0`; for uniforms `u, v` in the
open interval `(0, 1)` the radicand `-2 ln u` is non-negative (so the
square root is real, never NaN) and the result is bounded in absolute
value by `sqrt(-2 ln u)` — a finite real, never NaN or infinity. -/
theorem C9_gaussian_sampler (u v : ℝ) (hu0 : 0 < u) (hu1 : u < 1)
    (hv0 : 0 < v) (hv1 : v < 1) :
    0 ≤ -2.0 * Real.log u ∧
    |generateGaussian u v| ≤ Real.sqrt (-2.0 * Real.log u) ∧
    (∀ us vs : ℕ → ℝ, us 0 = 0 → us 1 ≠ 0 → vs 0 ≠ 0 →
      generateGaussianDraw us vs = generateGaussian (us 1) (vs 0)) := by
  have hlog : Real.log u < 0 := Real.log_neg hu0 hu1
  have hrad : 0 ≤ -2.0 * Real.log u := by nlinarith
  refine ⟨hrad, ?_, ?_⟩
  · rw [generateGaussian, abs_mul, abs_of_nonneg (Real.sqrt_nonneg _)]
    exact mul_le_of_le_one_right (Real.sqrt_nonneg _) (Real.abs_cos_le_one _)
  · intro us vs hus0 hus1 hvs0
    have hu' : ∃ n, us n ≠ 0 := ⟨1, hus1⟩
    have hv' : ∃ n, vs n ≠ 0 := ⟨0, hvs0⟩
    have h1 : firstNonzero us = us 1 := by
      rw [firstNonzero, dif_pos hu']
      congr 1
      rw [Nat.find_eq_iff]
      exact ⟨hus1, by intro m hm; interval_cases m <;> simpa using hus0⟩
    have h2 : firstNonzero vs = vs 0 := by
      rw [firstNonzero, dif_pos hv']
      congr 1
      rw [Nat.find_eq_zero]
      exact hvs0
    rw [generateGaussianDraw, h1, h2]

theorem randomIndices_length (unif : ℕ → ℝ) (numSimulations : ℕ) :
    (randomIndices unif numSimulations).length = 30 := by
  simp [randomIndices]

theorem randomIndices_getD (unif : ℕ → ℝ) (numSimulations : ℕ) {i : ℕ}
    (hi : i < 30) :
    (randomIndices unif numSimulations).getD i 0
      = ⌊unif i * (numSimulations : ℝ)⌋₊ := by
  rw [randomIndices, List.getD_eq_getElem _ _ (by simpa using hi)]
  simp

theorem randomIndices_lt (unif : ℕ → ℝ) {numSimulations : ℕ}
    (hN : 1 ≤ numSimulations) (hu : ∀ i, 0 ≤ unif i ∧ unif i < 1) :
    ∀ idx ∈ randomIndices unif numSimulations, idx < numSimulations := by
  intro idx hidx
  rw [randomIndices] at hidx
  obtain ⟨i, hi, rfl⟩ := List.mem_map.mp hidx
  have h0 := (hu i).1
  have h1 := (hu i).2
  rw [Nat.floor_lt (by positivity)]
  calc unif i * (numSimulations : ℝ) < 1 * numSimulations := by
        apply mul_lt_mul_of_pos_right h1
        exact_mod_cast hN
    _ = numSimulations := one_mul _

/-- C10: the 30 representative sample-path indices are drawn once per
call (`randomIndices` depends only on the uniform stream and the path
count, not on the day), each lies in `[0, pathCount)` when the uniform
draws lie in `[0, 1)`, and the same indices are reused at every day: at
each day `t` the `i`-th recorded sample value is the day-`t` price of
the single path selected by the `i`-th index — in particular every
sample value at day 0 equals the last historical price. -/
theorem C10_sample_paths (rand : RandSource) (prices : List ℝ)
    (days numSimulations : ℕ) (res : SimResult)
    (hN : 1 ≤ numSimulations)
    (hu : ∀ i, 0 ≤ rand.unif i ∧ rand.unif i < 1)
    (hres : runGBM rand prices days numSimulations = some res) :
    (randomIndices rand.unif numSimulations).length = 30 ∧
    (∀ idx ∈ randomIndices rand.unif numSimulations, idx < numSimulations) ∧
    (∀ t ≤ days,
      (res.data.getD t default).simValues
        = (randomIndices rand.unif numSimulations).map
            fun simIndex =>
              ((ensemble rand prices days numSimulations).getD simIndex []).getD t 0) ∧
    (∀ i < 30, ∀ t ≤ days,
      (res.data.getD t default).simValues.getD i 0
        = pathPrice (lastPrice prices) (engineDrift prices) (engineVolatility prices)
            (rand.gauss ((randomIndices rand.unif numSimulations).getD i 0)) t) ∧
    (∀ i < 30,
      (res.data.getD 0 default).simValues.getD i 0 = lastPrice prices) := by
  obtain ⟨-, rfl⟩ := runGBM_some_inv rand prices days numSimulations hres
  have hidxlt := randomIndices_lt rand.unif hN hu
  have hsimv : ∀ t ≤ days,
      ((buildResult rand prices days numSimulations).data.getD t default).simValues
        = (randomIndices rand.unif numSimulations).map
            fun simIndex =>
              ((ensemble rand prices days numSimulations).getD simIndex []).getD t 0 := by
    intro t ht
    rw [buildResult_data, aggregatedData_getD rand prices days numSimulations ht,
      dayData_simValues]
  have hval : ∀ i < 30, ∀ t ≤ days,
      ((buildResult rand prices days numSimulations).data.getD t default).simValues.getD i 0
        = pathPrice (lastPrice prices) (engineDrift prices) (engineVolatility prices)
            (rand.gauss ((randomIndices rand.unif numSimulations).getD i 0)) t := by
    intro i hi t ht
    rw [hsimv t ht]
    have hilen : i < (randomIndices rand.unif numSimulations).length := by
      rw [randomIndices_length]
      exact hi
    rw [List.getD_eq_getElem _ _ (by simpa using hilen),
      List.getElem_map]
    have hidx : (randomIndices rand.unif numSimulations).getD i 0
        = (randomIndices rand.unif numSimulations).get ⟨i, hilen⟩ := by
      rw [List.getD_eq_getElem _ _ hilen, List.get_eq_getElem]
    have hlt : (randomIndices rand.unif numSimulations).get ⟨i, hilen⟩
        < numSimulations := by
      apply hidxlt
      exact List.get_mem _ _ _
    rw [hidx, List.get_eq_getElem]
    rw [show ((randomIndices rand.unif numSimulations)[i]) =
        (randomIndices rand.unif numSimulations)[i] from rfl]
    rw [ensemble_getD rand prices days numSimulations (by simpa using hlt),
      simPathList_getD _ _ _ _ ht]
  refine ⟨randomIndices_length rand.unif numSimulations, hidxlt, hsimv, hval, ?_⟩
  intro i hi
  rw [hval i hi 0 (Nat.zero_le days)]
  rfl

/-- C10 witness: prices `[100, 102, 101]`, horizon 2, 3 paths, all
uniform draws 0. -/
theorem C10_sample_paths_witness :
    (randomIndices rand0.unif 3).length = 30 ∧
    (∀ idx ∈ randomIndices rand0.unif 3, idx < 3) ∧
    (∀ t ≤ 2,
      ((buildResult rand0 [(100 : ℝ), 102, 101] 2 3).data.getD t default).simValues
        = (randomIndices rand0.unif 3).map
            fun simIndex =>
              ((ensemble rand0 [(100 : ℝ), 102, 101] 2 3).getD simIndex []).getD t 0) ∧
    (∀ i < 30, ∀ t ≤ 2,
      ((buildResult rand0 [(100 : ℝ), 102, 101] 2 3).data.getD t default).simValues.getD i 0
        = pathPrice (lastPrice [(100 : ℝ), 102, 101])
            (engineDrift [(100 : ℝ), 102, 101]) (engineVolatility [(100 : ℝ), 102, 101])
            (rand0.gauss ((randomIndices rand0.unif 3).getD i 0)) t) ∧
    (∀ i < 30,
      ((buildResult rand0 [(100 : ℝ), 102, 101] 2 3).data.getD 0 default).simValues.getD i 0
        = lastPrice [(100 : ℝ), 102, 101]) :=
  C10_sample_paths rand0 [(100 : ℝ), 102, 101] 2 3
    (buildResult rand0 [(100 : ℝ), 102, 101] 2 3)
    (by omega) (fun i => ⟨le_refl 0, by norm_num [rand0]⟩)
    (runGBM_eq_some rand0 [(100 : ℝ), 102, 101] 2 3 (by simp))

/-- C9 witness at `u = v = 1/2`. -/
theorem C9_gaussian_sampler_witness :
    0 ≤ -2.0 * Real.log (1 / 2 : ℝ) ∧
    |generateGaussian (1 / 2 : ℝ) (1 / 2)| ≤ Real.sqrt (-2.0 * Real.log (1 / 2 : ℝ)) ∧
    (∀ us vs : ℕ → ℝ, us 0 = 0 → us 1 ≠ 0 → vs 0 ≠ 0 →
      generateGaussianDraw us vs = generateGaussian (us 1) (vs 0)) :=
  C9_gaussian_sampler (1 / 2) (1 / 2) (by norm_num) (by norm_num)
    (by norm_num) (by norm_num)

end MC
